import Mathlib

/-!
Shallow embedding of `src/model/preprocessing.py` (class `DataLoader`):
the tag-vocabulary builder `set_tags` and the feature encoder
`convert_examples_to_features`, together with theorems checking the
specification's claims about them.

Modelling conventions:
* The external BERT tokenizer is an opaque collaborator: a record with
  `tokenize : String → List String` and a per-token id map; the source's
  `convert_tokens_to_ids` is elementwise application of that map.
* Python dicts with unique keys are association lists in insertion order
  (`List (String × Nat)`); `len(dict)` is the list length.
* Python `KeyError` / `IndexError` / failing `assert` are the explicit
  error values of `ConvError`; fallible code returns `Except`.
* `tokens[0:(max_seq_length - 2)]` is Python slicing, which treats a
  negative bound as counting from the end; `pySliceTo` reproduces that.
-/

namespace Preprocessing

/-- The external subword tokenizer: `tokenize` splits a word into subword
strings, `tokenToId` maps a token string to its vocabulary id
(`convert_tokens_to_ids` maps it over a token list). -/
structure Tokenizer where
  tokenize : String → List String
  tokenToId : String → Nat

/-- `tokenizer.convert_tokens_to_ids(tokens)`: elementwise id lookup. -/
def convert_tokens_to_ids (tok : Tokenizer) (ts : List String) : List Nat :=
  ts.map tok.tokenToId

/-- Python dict lookup `d[t]` on an insertion-ordered association list,
returning `none` where Python raises `KeyError`. -/
def lookupTag (tag2id : List (String × Nat)) (t : String) : Option Nat :=
  (tag2id.find? (fun p => p.1 == t)).map Prod.snd

/-- Lookup in the inverse (id-keyed) association list. -/
def lookupId (m : List (Nat × String)) (i : Nat) : Option String :=
  (m.find? (fun p => p.1 == i)).map Prod.snd

/-- The four reserved vocabulary entries seeded by `set_tags`:
`self.tag2id['_t_pad_'] = 0` … `self.tag2id['[SEP]'] = 3`. -/
def reservedTag2id : List (String × Nat) :=
  [("_t_pad_", 0), ("[INV]", 1), ("[CLS]", 2), ("[SEP]", 3)]

/-- One iteration of the `for tag in tags` loop in `set_tags`:
`if tag not in self.tag2id: self.tag2id[tag] = len(self.tag2id)`. -/
def insertTag (m : List (String × Nat)) (tag : String) : List (String × Nat) :=
  if (lookupTag m tag).isSome then m else m ++ [(tag, m.length)]

/-- `set_tags`, parameterised by the list of observed training tags in the
(set-iteration) order Python happens to produce. -/
def set_tags (tags : List String) : List (String × Nat) :=
  tags.foldl insertTag reservedTag2id

/-- `self.id2tag = {i: tag for tag, i in self.tag2id.items()}`. -/
def id2tag (m : List (String × Nat)) : List (Nat × String) :=
  m.map (fun p => (p.2, p.1))

/-- Python errors surfaced by `convert_examples_to_features`:
`IndexError` (label list shorter than needed), `KeyError` on a tag
lookup, and a failing length `assert`. -/
inductive ConvError where
  | indexError
  | keyError (tag : String)
  | assertError
deriving DecidableEq

/-- The labels a single non-sentinel word contributes: the inner
`for m in range(len(token))` loop appends the word's own label at `m = 0`
and `'[INV]'` otherwise. -/
def wordLabels (l : String) (k : Nat) : List String :=
  (List.range k).map (fun m => if m = 0 then l else "[INV]")

/-- The label-mask entries a single non-sentinel word contributes:
`True` at `m = 0`, `False` otherwise. -/
def wordMask (k : Nat) : List Bool :=
  (List.range k).map (fun m => m == 0)

/-- The word/label alignment loop (`for i, word in enumerate(textlist)`):
builds the `tokens`, `labels` and `label_mask` lists.  Each iteration
first reads `labellist[i]` (so a too-short label list is an
`IndexError`, modelled as `none`), then handles the `'_unk_'` and
`'_w_pad_'` sentinels, else extends with the tokenizer's subwords. -/
def alignExample (tok : Tokenizer) :
    List String → List String → Option (List String × List String × List Bool)
  | [], _ => some ([], [], [])
  | _ :: _, [] => none
  | word :: ws, l :: ls =>
    if word = "_unk_" then
      (alignExample tok ws ls).map
        (fun r => ("[UNK]" :: r.1, l :: r.2.1, true :: r.2.2))
    else if word = "_w_pad_" then
      alignExample tok ws ls
    else
      let token := tok.tokenize word
      (alignExample tok ws ls).map
        (fun r => (token ++ r.1,
                   wordLabels l token.length ++ r.2.1,
                   wordMask token.length ++ r.2.2))

/-- Python slice `xs[0:n]`: a nonnegative bound is `take`, a negative
bound counts from the end (clamped at zero by `Nat` subtraction). -/
def pySliceTo (xs : List α) (n : Int) : List α :=
  if 0 ≤ n then xs.take n.toNat
  else xs.take (xs.length - (-n).toNat)

/-- The truncation step:
`if use_max_seq and len(tokens) >= max_seq_length - 1:` slice all three
lists to `[0:(max_seq_length - 2)]`. -/
def truncateExample (useMax : Bool) (msl : Nat)
    (tokens labels : List String) (mask : List Bool) :
    List String × List String × List Bool :=
  if useMax ∧ msl - 1 ≤ tokens.length then
    (pySliceTo tokens ((msl : Int) - 2),
     pySliceTo labels ((msl : Int) - 2),
     pySliceTo mask ((msl : Int) - 2))
  else (tokens, labels, mask)

/-- The `for i, token in enumerate(tokens): label_ids.append(self.tag2id[labels[i]])`
loop: one id per token, `KeyError` on a missing tag, `IndexError` when
`labels` runs out first. -/
def assembleLabelIds (tag2id : List (String × Nat)) :
    List String → List String → Except ConvError (List Nat)
  | [], _ => .ok []
  | _ :: _, [] => .error .indexError
  | _ :: ts, l :: ls =>
    match lookupTag tag2id l with
    | none => .error (.keyError l)
    | some i => (assembleLabelIds tag2id ts ls).map (fun ids => i :: ids)

/-- The per-example output record: `ntokens` (the marker-wrapped token
strings, used for diagnostics) and the five arrays appended to
`inp` / `target`. -/
structure Feature where
  ntokens : List String
  input_ids : List Nat
  input_mask : List Nat
  segment_ids : List Nat
  label_ids : List Nat
  label_mask : List Bool
deriving DecidableEq

/-- The `while len(xs) < max_seq_length: xs.append(pad)` padding loop. -/
def padTo (msl : Nat) (pad : α) (xs : List α) : List α :=
  xs ++ List.replicate (msl - xs.length) pad

/-- The marker-wrapping and id-conversion statements: `ntokens` built as
`['[CLS]'] + tokens + ['[SEP]']` with a `0` segment id per entry, the
label ids `[tag2id['[CLS]']] + body + [tag2id['[SEP]']]`, the label mask
with `False` inserted at the front and appended at the back,
`input_ids = convert_tokens_to_ids(ntokens)` and
`input_mask = [1] * len(input_ids)`. -/
def rawFeature (tok : Tokenizer) (tokens : List String) (lmask : List Bool)
    (cid sid : Nat) (bodyIds : List Nat) : Feature :=
  let ntokens := "[CLS]" :: tokens ++ ["[SEP]"]
  { ntokens := ntokens
    input_ids := convert_tokens_to_ids tok ntokens
    input_mask := (convert_tokens_to_ids tok ntokens).map (fun _ => 1)
    segment_ids := 0 :: tokens.map (fun _ => 0) ++ [0]
    label_ids := cid :: bodyIds ++ [sid]
    label_mask := false :: lmask ++ [false] }

/-- The five `while`-loop padding passes applied to a feature record
(`ntokens` itself is never padded in the source). -/
def padFeature (msl : Nat) (f : Feature) : Feature :=
  { f with
    input_ids := padTo msl 0 f.input_ids
    input_mask := padTo msl 0 f.input_mask
    segment_ids := padTo msl 0 f.segment_ids
    label_ids := padTo msl 0 f.label_ids
    label_mask := padTo msl false f.label_mask }

/-- The five `assert len(xs) == max_seq_length` statements. -/
def lengthAsserts (msl : Nat) (f : Feature) : Prop :=
  f.input_ids.length = msl ∧ f.input_mask.length = msl ∧
  f.segment_ids.length = msl ∧ f.label_ids.length = msl ∧
  f.label_mask.length = msl

instance (msl : Nat) (f : Feature) : Decidable (lengthAsserts msl f) := by
  unfold lengthAsserts
  infer_instance

/-- Everything after truncation: look up the reserved marker ids, run
the label-id loop, assemble the record, then, in fixed-length mode, pad
and check the asserts. -/
def buildFeature (tag2id : List (String × Nat)) (tok : Tokenizer)
    (msl : Nat) (useMax : Bool) (tokens labels : List String)
    (lmask : List Bool) : Except ConvError Feature :=
  match lookupTag tag2id "[CLS]" with
  | none => .error (.keyError "[CLS]")
  | some cid =>
    match assembleLabelIds tag2id tokens labels with
    | .error e => .error e
    | .ok bodyIds =>
      match lookupTag tag2id "[SEP]" with
      | none => .error (.keyError "[SEP]")
      | some sid =>
        let raw := rawFeature tok tokens lmask cid sid bodyIds
        if useMax then
          let padded := padFeature msl raw
          if lengthAsserts msl padded then .ok padded
          else .error .assertError
        else .ok raw

/-- The body of the `for (ex_index, example)` loop of
`convert_examples_to_features` for one example: align, truncate, then
`buildFeature`. -/
def convertExample (tag2id : List (String × Nat)) (tok : Tokenizer)
    (msl : Nat) (useMax : Bool) (textlist labellist : List String) :
    Except ConvError Feature :=
  match alignExample tok textlist labellist with
  | none => .error .indexError
  | some (tokens0, labels0, mask0) =>
    buildFeature tag2id tok msl useMax
      (truncateExample useMax msl tokens0 labels0 mask0).1
      (truncateExample useMax msl tokens0 labels0 mask0).2.1
      (truncateExample useMax msl tokens0 labels0 mask0).2.2

/-- The example loop: `labellist = tag_seq[ex_index]` per example
(`IndexError` when `tag_seq` is shorter than `word_seq`). -/
def convertAll (tag2id : List (String × Nat)) (tok : Tokenizer)
    (msl : Nat) (useMax : Bool) :
    List (List String) → List (List String) → Except ConvError (List Feature)
  | [], _ => .ok []
  | _ :: _, [] => .error .indexError
  | ws :: wss, ts :: tss =>
    match convertExample tag2id tok msl useMax ws ts with
    | .error e => .error e
    | .ok f => (convertAll tag2id tok msl useMax wss tss).map (fun fs => f :: fs)

/-- `convert_examples_to_features`: synthesizes an all-`'_t_pad_'` tag
sequence when `tag_seq is None`, then runs the example loop.  The result
is the list of per-example records (the source stacks them into the
`inp` / `target` dicts and, in fixed-length mode, one-hot encodes the
label ids — a bijective re-encoding not needed by the claims). -/
def convert_examples_to_features (tag2id : List (String × Nat))
    (tok : Tokenizer) (msl : Nat) (useMax : Bool)
    (word_seq : List (List String)) (tag_seq : Option (List (List String))) :
    Except ConvError (List Feature) :=
  let tseq := match tag_seq with
    | none => word_seq.map (fun ex => ex.map (fun _ => "_t_pad_"))
    | some ts => ts
  convertAll tag2id tok msl useMax word_seq tseq

/-- The mutable fields of a `DataLoader` instance that
`convert_examples_to_features` could touch: the two vocabulary dicts and
the three loaded dataset splits. -/
structure DataLoaderState where
  tag2id : List (String × Nat)
  id2tagMap : List (Nat × String)
  train_word_seq : List (List String)
  train_tag_seq : List (List String)
  val_word_seq : List (List String)
  val_tag_seq : List (List String)
  test_word_seq : List (List String)
deriving DecidableEq

/-- `convert_examples_to_features` as a method: it reads `self.tag2id`
and returns the instance state it was called on.  The source assigns no
`self.*` field and mutates no caller-supplied list (every list it grows
is freshly created inside the loop), so the state threads through
unchanged. -/
def convertMethod (st : DataLoaderState) (tok : Tokenizer) (msl : Nat)
    (useMax : Bool) (word_seq : List (List String))
    (tag_seq : Option (List (List String))) :
    Except ConvError (List Feature) × DataLoaderState :=
  (convert_examples_to_features st.tag2id tok msl useMax word_seq tag_seq, st)

/-- A degenerate tokenizer for concrete witnesses: every word is a single
subword, every token has id 0. -/
def unitTok : Tokenizer := ⟨fun w => [w], fun _ => 0⟩

/-- A tokenizer that splits every word into two subwords, for
counterexamples about multi-subword words. -/
def pairTok : Tokenizer := ⟨fun _ => ["a", "b"], fun _ => 0⟩

/-! ### Basic lemmas about the building blocks -/

theorem wordLabels_succ (l : String) (k : Nat) :
    wordLabels l (k + 1) = l :: List.replicate k "[INV]" := by
  unfold wordLabels
  rw [List.range_succ_eq_map, List.map_cons]
  simp [List.map_map, Function.comp, List.eq_replicate_iff]

theorem wordMask_succ (k : Nat) :
    wordMask (k + 1) = true :: List.replicate k false := by
  unfold wordMask
  rw [List.range_succ_eq_map, List.map_cons]
  simp [List.map_map, Function.comp, List.eq_replicate_iff]

theorem alignExample_lengths (tok : Tokenizer) :
    ∀ (ws ls : List String) (r : List String × List String × List Bool),
      alignExample tok ws ls = some r →
      r.1.length = r.2.1.length ∧ r.1.length = r.2.2.length
  | [], _, r, h => by
    simp only [alignExample, Option.some_inj] at h
    subst h; exact ⟨rfl, rfl⟩
  | _ :: _, [], r, h => by simp [alignExample] at h
  | word :: ws, l :: ls, r, h => by
    simp only [alignExample] at h
    split at h
    · rcases Option.map_eq_some'.mp h with ⟨r', hr', hmap⟩
      have ih := alignExample_lengths tok ws ls r' hr'
      subst hmap; simpa using ih
    · split at h
      · exact alignExample_lengths tok ws ls r h
      · rcases Option.map_eq_some'.mp h with ⟨r', hr', hmap⟩
        have ih := alignExample_lengths tok ws ls r' hr'
        subst hmap
        simp only [List.length_append, List.length_cons]
        unfold wordLabels wordMask
        simp only [List.length_map, List.length_range]
        omega

theorem alignExample_isSome (tok : Tokenizer) :
    ∀ (ws ls : List String), ws.length ≤ ls.length →
      (alignExample tok ws ls).isSome
  | [], _, _ => by simp [alignExample]
  | _ :: _, [], h => by simp at h
  | word :: ws, l :: ls, h => by
    have h' : ws.length ≤ ls.length := by simpa using h
    have ih := alignExample_isSome tok ws ls h'
    simp only [alignExample]
    split
    · simpa using ih
    · split
      · exact ih
      · simpa using ih

theorem assembleLabelIds_length (tag2id : List (String × Nat)) :
    ∀ (ts ls : List String) (ids : List Nat),
      assembleLabelIds tag2id ts ls = .ok ids → ids.length = ts.length
  | [], _, ids, h => by
    simp only [assembleLabelIds] at h
    cases h; rfl
  | _ :: _, [], ids, h => by simp [assembleLabelIds] at h
  | t :: ts, l :: ls, ids, h => by
    simp only [assembleLabelIds] at h
    split at h
    · cases h
    · rename_i i hi
      cases hrec : assembleLabelIds tag2id ts ls with
      | error e => rw [hrec] at h; cases h
      | ok ids' =>
        rw [hrec] at h
        cases h
        simpa using assembleLabelIds_length tag2id ts ls ids' hrec

theorem assembleLabelIds_not_indexError (tag2id : List (String × Nat)) :
    ∀ (ts ls : List String), ts.length ≤ ls.length →
      assembleLabelIds tag2id ts ls ≠ .error .indexError
  | [], _, _ => by simp [assembleLabelIds]
  | _ :: _, [], h => by simp at h
  | t :: ts, l :: ls, h => by
    have h' : ts.length ≤ ls.length := by simpa using h
    have ih := assembleLabelIds_not_indexError tag2id ts ls h'
    simp only [assembleLabelIds]
    split
    · simp
    · cases hrec : assembleLabelIds tag2id ts ls with
      | error e =>
        cases e with
        | indexError => exact absurd hrec ih
        | keyError t => simp [Except.map]
        | assertError => simp [Except.map]
      | ok ids' => simp [Except.map]

theorem assembleLabelIds_keyError_iff (tag2id : List (String × Nat)) :
    ∀ (ts ls : List String), ts.length = ls.length →
      ((∃ t, assembleLabelIds tag2id ts ls = .error (.keyError t)) ↔
        ∃ l ∈ ls, lookupTag tag2id l = none)
  | [], [], _ => by simp [assembleLabelIds]
  | [], _ :: _, h => by simp at h
  | _ :: _, [], h => by simp at h
  | t :: ts, l :: ls, h => by
    have h' : ts.length = ls.length := by simpa using h
    have ih := assembleLabelIds_keyError_iff tag2id ts ls h'
    simp only [assembleLabelIds]
    cases hl : lookupTag tag2id l with
    | none =>
      simp only [List.mem_cons]
      constructor
      · intro _; exact ⟨l, Or.inl rfl, hl⟩
      · intro _; exact ⟨l, rfl⟩
    | some i =>
      cases hrec : assembleLabelIds tag2id ts ls with
      | error e =>
        simp only [Except.map, List.mem_cons]
        constructor
        · rintro ⟨t', ht'⟩
          cases ht'
          rcases ih.mp ⟨t', hrec⟩ with ⟨l', hl', hnone⟩
          exact ⟨l', Or.inr hl', hnone⟩
        · rintro ⟨l', hl', hnone⟩
          rcases hl' with rfl | hl'
          · rw [hl] at hnone; cases hnone
          · rcases ih.mpr ⟨l', hl', hnone⟩ with ⟨t', ht'⟩
            rw [ht'] at hrec; cases hrec
            exact ⟨t', rfl⟩
      | ok ids' =>
        simp only [Except.map, List.mem_cons]
        constructor
        · rintro ⟨t', ht'⟩; cases ht'
        · rintro ⟨l', hl', hnone⟩
          rcases hl' with rfl | hl'
          · rw [hl] at hnone; cases hnone
          · rcases ih.mpr ⟨l', hl', hnone⟩ with ⟨t', ht'⟩
            rw [ht'] at hrec; cases hrec

theorem pySliceTo_nonneg {α : Type} (xs : List α) (n : Int) (h : 0 ≤ n) :
    pySliceTo xs n = xs.take n.toNat := by
  simp [pySliceTo, h]

theorem padTo_length {α : Type} (msl : Nat) (pad : α) (xs : List α) :
    (padTo msl pad xs).length = max xs.length msl := by
  simp only [padTo, List.length_append, List.length_replicate]
  omega

/-! ### Lemmas about `set_tags` -/

theorem lookupTag_append_left (m r : List (String × Nat)) (t : String) (i : Nat)
    (h : lookupTag m t = some i) : lookupTag (m ++ r) t = some i := by
  unfold lookupTag at h ⊢
  rw [List.find?_append]
  rcases Option.map_eq_some'.mp h with ⟨p, hp, hsnd⟩
  rw [hp]
  simpa using hsnd

theorem foldl_insertTag_prefix :
    ∀ (tags : List String) (m : List (String × Nat)),
      ∃ r, tags.foldl insertTag m = m ++ r
  | [], m => ⟨[], by simp⟩
  | tag :: tags, m => by
    rcases foldl_insertTag_prefix tags (insertTag m tag) with ⟨r, hr⟩
    simp only [List.foldl_cons, hr]
    unfold insertTag
    split
    · exact ⟨r, rfl⟩
    · exact ⟨(tag, m.length) :: r, by simp⟩

theorem lookupTag_foldl_of_some (tags : List String) (m : List (String × Nat))
    (t : String) (i : Nat) (h : lookupTag m t = some i) :
    lookupTag (tags.foldl insertTag m) t = some i := by
  rcases foldl_insertTag_prefix tags m with ⟨r, hr⟩
  rw [hr]
  exact lookupTag_append_left m r t i h

/-- The running invariant of the `set_tags` loop: the dict's values are
exactly `0, 1, …, len-1` in insertion order, and its keys are distinct. -/
def tagInv (m : List (String × Nat)) : Prop :=
  m.map Prod.snd = List.range m.length ∧ (m.map Prod.fst).Nodup

theorem insertTag_tagInv (m : List (String × Nat)) (tag : String)
    (h : tagInv m) : tagInv (insertTag m tag) := by
  obtain ⟨hvals, hkeys⟩ := h
  unfold insertTag
  split
  · exact ⟨hvals, hkeys⟩
  · rename_i hnone
    constructor
    · simp only [List.map_append, List.length_append, hvals, List.map_cons]
      simp [List.range_succ]
    · rw [List.map_append]
      simp only [List.map_cons, List.map_nil]
      rw [List.nodup_append]
      refine ⟨hkeys, List.nodup_singleton _, ?_⟩
      intro a ha hb
      simp only [List.mem_singleton] at hb
      rw [hb] at ha
      have : lookupTag m tag = none := by
        cases hl : lookupTag m tag with
        | none => rfl
        | some i => rw [hl] at hnone; simp at hnone
      unfold lookupTag at this
      rcases List.mem_map.mp ha with ⟨p, hp, hfst⟩
      have := List.find?_eq_none.mp (Option.map_eq_none'.mp this) p hp
      simp only [beq_iff_eq] at this
      exact this hfst


theorem foldl_insertTag_tagInv :
    ∀ (tags : List String) (m : List (String × Nat)),
      tagInv m → tagInv (tags.foldl insertTag m)
  | [], _, h => h
  | tag :: tags, m, h =>
    foldl_insertTag_tagInv tags (insertTag m tag) (insertTag_tagInv m tag h)

theorem set_tags_tagInv (tags : List String) : tagInv (set_tags tags) :=
  foldl_insertTag_tagInv tags reservedTag2id ⟨by decide, by decide⟩

theorem lookupTag_insertTag_self (m : List (String × Nat)) (tag : String) :
    (lookupTag (insertTag m tag) tag).isSome := by
  unfold insertTag
  split
  · assumption
  · unfold lookupTag
    rw [List.find?_append]
    rename_i hnone
    cases hl : lookupTag m tag with
    | some i => rw [hl] at hnone; simp at hnone
    | none =>
      unfold lookupTag at hl
      rcases Option.map_eq_none'.mp hl with hf
      rw [hf]
      simp [Option.orElse]

theorem lookupTag_foldl_mem :
    ∀ (tags : List String) (m : List (String × Nat)) (t : String), t ∈ tags →
      (lookupTag (tags.foldl insertTag m) t).isSome
  | [], _, _, h => by cases h
  | tag :: tags, m, t, h => by
    rcases List.mem_cons.mp h with rfl | h'
    · simp only [List.foldl_cons]
      cases hl : lookupTag (insertTag m t) t with
      | none =>
        have := lookupTag_insertTag_self m t
        rw [hl] at this; cases this
      | some i =>
        rw [lookupTag_foldl_of_some tags (insertTag m t) t i hl]
        rfl
    · exact lookupTag_foldl_mem tags (insertTag m tag) t h'

theorem assoc_lookup_iff_mem {κ : Type} [BEq κ] [LawfulBEq κ] {β : Type}
    (m : List (κ × β)) (hkeys : (m.map Prod.fst).Nodup) (k : κ) (b : β) :
    (m.find? (fun p => p.1 == k)).map Prod.snd = some b ↔ (k, b) ∈ m := by
  constructor
  · intro h
    rcases Option.map_eq_some'.mp h with ⟨p, hp, hsnd⟩
    have hkey : p.1 = k := by
      have := List.find?_some hp
      simpa using this
    have hmem := List.mem_of_find?_eq_some hp
    have : p = (k, b) := by
      cases p with
      | mk a c => simp only at hkey hsnd; rw [hkey, hsnd]
    rw [this] at hmem
    exact hmem
  · intro hmem
    have hsome : (m.find? (fun p => p.1 == k)).isSome := by
      rw [List.find?_isSome]
      exact ⟨(k, b), hmem, by simp⟩
    rcases Option.isSome_iff_exists.mp hsome with ⟨p, hp⟩
    have hkey : p.1 = k := by
      have := List.find?_some hp
      simpa using this
    have hmem' := List.mem_of_find?_eq_some hp
    have heq : p = (k, b) :=
      List.inj_on_of_nodup_map hkeys hmem' hmem (by simp [hkey])
    rw [hp, heq]
    rfl

theorem id2tag_keys (m : List (String × Nat)) :
    (id2tag m).map Prod.fst = m.map Prod.snd := by
  simp [id2tag, List.map_map, Function.comp]

theorem mem_id2tag (m : List (String × Nat)) (i : Nat) (t : String) :
    (i, t) ∈ id2tag m ↔ (t, i) ∈ m := by
  unfold id2tag
  rw [List.mem_map]
  constructor
  · rintro ⟨⟨a, c⟩, hp, heq⟩
    simp only [Prod.mk.injEq] at heq
    obtain ⟨rfl, rfl⟩ := heq
    exact hp
  · intro h
    exact ⟨(t, i), h, rfl⟩

theorem mem_foldl_insertTag :
    ∀ (tags : List String) (m : List (String × Nat)) (p : String × Nat),
      p ∈ tags.foldl insertTag m → p ∈ m ∨ p.1 ∈ tags
  | [], _, _, h => Or.inl h
  | tag :: tags, m, p, h => by
    rcases mem_foldl_insertTag tags (insertTag m tag) p h with h' | h'
    · unfold insertTag at h'
      split at h'
      · exact Or.inl h'
      · rcases List.mem_append.mp h' with h'' | h''
        · exact Or.inl h''
        · simp only [List.mem_singleton] at h''
          right
          rw [h'']
          exact List.mem_cons_self _ _
    · exact Or.inr (List.mem_cons_of_mem _ h')

/-! ### Claim theorems -/

/-- C6: after `set_tags`, the tag-to-id mapping has the four reserved
entries at fixed ids 0–3, every observed training tag is assigned an id,
every key is reserved or observed, the values are exactly the contiguous
range `0 .. N-1` with distinct keys, and `id2tag` is the exact inverse of
`tag2id` (the mapping is bijective); an observed tag equal to a reserved
name is skipped and reuses the reserved id (its lookup still yields the
reserved value). -/
theorem set_tags_bijective_vocabulary (tags : List String) :
    lookupTag (set_tags tags) "_t_pad_" = some 0 ∧
    lookupTag (set_tags tags) "[INV]" = some 1 ∧
    lookupTag (set_tags tags) "[CLS]" = some 2 ∧
    lookupTag (set_tags tags) "[SEP]" = some 3 ∧
    (set_tags tags).map Prod.snd = List.range (set_tags tags).length ∧
    ((set_tags tags).map Prod.fst).Nodup ∧
    (∀ t ∈ tags, (lookupTag (set_tags tags) t).isSome) ∧
    (∀ p ∈ set_tags tags,
        p.1 = "_t_pad_" ∨ p.1 = "[INV]" ∨ p.1 = "[CLS]" ∨ p.1 = "[SEP]" ∨
        p.1 ∈ tags) ∧
    (∀ (t : String) (i : Nat),
        lookupTag (set_tags tags) t = some i ↔
        lookupId (id2tag (set_tags tags)) i = some t) := by
  have hinv := set_tags_tagInv tags
  obtain ⟨hvals, hkeys⟩ := hinv
  refine ⟨?_, ?_, ?_, ?_, hvals, hkeys, ?_, ?_, ?_⟩
  · exact lookupTag_foldl_of_some tags reservedTag2id _ _ (by decide)
  · exact lookupTag_foldl_of_some tags reservedTag2id _ _ (by decide)
  · exact lookupTag_foldl_of_some tags reservedTag2id _ _ (by decide)
  · exact lookupTag_foldl_of_some tags reservedTag2id _ _ (by decide)
  · intro t ht
    exact lookupTag_foldl_mem tags reservedTag2id t ht
  · intro p hp
    rcases mem_foldl_insertTag tags reservedTag2id p hp with h | h
    · rcases p with ⟨a, b⟩
      simp only [reservedTag2id, List.mem_cons, List.mem_singleton,
        Prod.mk.injEq, List.not_mem_nil] at h
      rcases h with ⟨rfl, _⟩ | ⟨rfl, _⟩ | ⟨rfl, _⟩ | ⟨rfl, _⟩ | h
      · exact Or.inl rfl
      · exact Or.inr (Or.inl rfl)
      · exact Or.inr (Or.inr (Or.inl rfl))
      · exact Or.inr (Or.inr (Or.inr (Or.inl rfl)))
      · cases h
    · exact Or.inr (Or.inr (Or.inr (Or.inr h)))
  · intro t i
    have hid2keys : ((id2tag (set_tags tags)).map Prod.fst).Nodup := by
      rw [id2tag_keys, hvals]
      exact List.nodup_range _
    have h1 : lookupTag (set_tags tags) t = some i ↔ (t, i) ∈ set_tags tags :=
      assoc_lookup_iff_mem (set_tags tags) hkeys t i
    have h2 : lookupId (id2tag (set_tags tags)) i = some t ↔
        (i, t) ∈ id2tag (set_tags tags) :=
      assoc_lookup_iff_mem (id2tag (set_tags tags)) hid2keys i t
    rw [h1, h2, mem_id2tag]

/-- C2: a word that is neither sentinel and that the tokenizer splits
into `k > 1` subwords contributes its `k` subword tokens, with the
word's own tag and validity `true` on exactly the first subword and the
reserved `'[INV]'` tag with validity `false` on each of the remaining
`k - 1` subwords. -/
theorem multi_subword_tagging (tok : Tokenizer) (w l : String)
    (ws ls : List String) (k : Nat)
    (h1 : w ≠ "_unk_") (h2 : w ≠ "_w_pad_")
    (hk : (tok.tokenize w).length = k) (hk1 : 1 < k) :
    alignExample tok (w :: ws) (l :: ls) =
      (alignExample tok ws ls).map
        (fun r => (tok.tokenize w ++ r.1,
                   (l :: List.replicate (k - 1) "[INV]") ++ r.2.1,
                   (true :: List.replicate (k - 1) false) ++ r.2.2)) := by
  obtain ⟨k', rfl⟩ : ∃ k', k = k' + 1 := ⟨k - 1, by omega⟩
  have hlab : wordLabels l (tok.tokenize w).length =
      l :: List.replicate k' "[INV]" := by
    rw [hk, wordLabels_succ]
  have hmask : wordMask (tok.tokenize w).length =
      true :: List.replicate k' false := by
    rw [hk, wordMask_succ]
  simp only [alignExample, if_neg h1, if_neg h2, hlab, hmask,
    Nat.add_sub_cancel]

/-- C2 witness: a concrete two-piece word. -/
theorem multi_subword_tagging_witness :
    alignExample pairTok ["hi"] ["O"] =
      (alignExample pairTok [] []).map
        (fun r => (pairTok.tokenize "hi" ++ r.1,
                   ("O" :: List.replicate (2 - 1) "[INV]") ++ r.2.1,
                   (true :: List.replicate (2 - 1) false) ++ r.2.2)) :=
  multi_subword_tagging pairTok "hi" "O" [] [] 2
    (by decide) (by decide) (by decide) (by decide)

/-- C5: a word equal to the unknown-word sentinel `'_unk_'` contributes
exactly one token `'[UNK]'` carrying the word's original tag with
validity `true`; a word equal to the padding sentinel `'_w_pad_'`
contributes nothing at all. -/
theorem sentinel_word_handling (tok : Tokenizer) (l : String)
    (ws ls : List String) :
    alignExample tok ("_unk_" :: ws) (l :: ls) =
      (alignExample tok ws ls).map
        (fun r => ("[UNK]" :: r.1, l :: r.2.1, true :: r.2.2)) ∧
    alignExample tok ("_w_pad_" :: ws) (l :: ls) = alignExample tok ws ls := by
  constructor
  · simp [alignExample]
  · simp [alignExample]

theorem pySliceTo_length_le {α β : Type} (xs : List α) (ys : List β) (n : Int)
    (h : ys.length = xs.length) :
    (pySliceTo ys n).length = (pySliceTo xs n).length := by
  unfold pySliceTo
  split <;> simp [h]

theorem truncateExample_lengths (useMax : Bool) (msl : Nat)
    (tokens labels : List String) (mask : List Bool)
    (hl : labels.length = tokens.length) (hm : mask.length = tokens.length) :
    (truncateExample useMax msl tokens labels mask).2.1.length =
      (truncateExample useMax msl tokens labels mask).1.length ∧
    (truncateExample useMax msl tokens labels mask).2.2.length =
      (truncateExample useMax msl tokens labels mask).1.length := by
  unfold truncateExample
  split
  · exact ⟨pySliceTo_length_le tokens labels _ hl,
      pySliceTo_length_le tokens mask _ hm⟩
  · exact ⟨hl, hm⟩

theorem truncateExample_token_bound (msl : Nat)
    (tokens labels : List String) (mask : List Bool) (h2 : 2 ≤ msl) :
    (truncateExample true msl tokens labels mask).1.length ≤ msl - 2 := by
  unfold truncateExample
  split
  · rename_i hcond
    rw [pySliceTo_nonneg _ _ (by omega)]
    simp only [List.length_take]
    omega
  · rename_i hcond
    simp only [eq_self_iff_true, true_and] at hcond
    show tokens.length ≤ msl - 2
    omega

/-- C3 counterexample: `max_seq_length = 1` is positive and a 3-token
example triggers the truncation branch (`3 ≥ 1 - 1`), but the Python
slice bound `1 - 2 = -1` keeps *two* tokens, which is not
`max_seq_length - 2`. -/
theorem truncation_length_counterexample :
    0 < 1 ∧
    (1 : Nat) - 1 ≤ (["a", "b", "c"] : List String).length ∧
    (truncateExample true 1 ["a", "b", "c"] ["x", "y", "z"]
        [true, true, true]).1.length = 2 ∧
    (truncateExample true 1 ["a", "b", "c"] ["x", "y", "z"]
        [true, true, true]).1.length ≠ 1 - 2 := by
  decide

/-- C3 (amended: `max_seq_length ≥ 2`): in fixed-length mode, when the
real-token count reaches `max_seq_length - 1` or more, truncation leaves
exactly `max_seq_length - 2` tokens (and the label and mask lists are cut
to the same bound); when the count is below `max_seq_length - 1`, nothing
is dropped. -/
theorem truncation_length (msl : Nat) (tokens labels : List String)
    (mask : List Bool) (h2 : 2 ≤ msl) :
    (msl - 1 ≤ tokens.length →
      (truncateExample true msl tokens labels mask).1.length = msl - 2 ∧
      truncateExample true msl tokens labels mask =
        (tokens.take (msl - 2), labels.take (msl - 2), mask.take (msl - 2))) ∧
    (tokens.length < msl - 1 →
      truncateExample true msl tokens labels mask = (tokens, labels, mask)) := by
  constructor
  · intro hge
    have hcond : (true = true ∧ msl - 1 ≤ tokens.length) := ⟨rfl, hge⟩
    constructor
    · unfold truncateExample
      rw [if_pos hcond, pySliceTo_nonneg _ _ (by omega)]
      simp only [List.length_take]
      omega
    · unfold truncateExample
      rw [if_pos hcond]
      rw [pySliceTo_nonneg _ _ (by omega), pySliceTo_nonneg _ _ (by omega),
        pySliceTo_nonneg _ _ (by omega)]
      have : ((msl : Int) - 2).toNat = msl - 2 := by omega
      rw [this]
  · intro hlt
    unfold truncateExample
    rw [if_neg]
    rintro ⟨-, hcond⟩
    omega

/-- C3 witness: at `max_seq_length = 4`, a 3-token example truncates to
`4 - 2 = 2` tokens and a 1-token example is left alone. -/
theorem truncation_length_witness :
    ((4 : Nat) - 1 ≤ (["a", "b", "c"] : List String).length →
      (truncateExample true 4 ["a", "b", "c"] ["x", "y", "z"]
          [true, true, true]).1.length = 4 - 2 ∧
      truncateExample true 4 ["a", "b", "c"] ["x", "y", "z"]
          [true, true, true] =
        ((["a", "b", "c"] : List String).take (4 - 2),
         (["x", "y", "z"] : List String).take (4 - 2),
         ([true, true, true] : List Bool).take (4 - 2))) ∧
    ((["a", "b", "c"] : List String).length < 4 - 1 →
      truncateExample true 4 ["a", "b", "c"] ["x", "y", "z"]
          [true, true, true] = (["a", "b", "c"], ["x", "y", "z"],
          [true, true, true])) :=
  truncation_length 4 ["a", "b", "c"] ["x", "y", "z"] [true, true, true]
    (by decide)

theorem rawFeature_lengths (tok : Tokenizer) (tokens : List String)
    (lmask : List Bool) (cid sid : Nat) (bodyIds : List Nat)
    (hb : bodyIds.length = tokens.length) (hm : lmask.length = tokens.length) :
    (rawFeature tok tokens lmask cid sid bodyIds).ntokens.length =
      tokens.length + 2 ∧
    (rawFeature tok tokens lmask cid sid bodyIds).input_ids.length =
      tokens.length + 2 ∧
    (rawFeature tok tokens lmask cid sid bodyIds).input_mask.length =
      tokens.length + 2 ∧
    (rawFeature tok tokens lmask cid sid bodyIds).segment_ids.length =
      tokens.length + 2 ∧
    (rawFeature tok tokens lmask cid sid bodyIds).label_ids.length =
      tokens.length + 2 ∧
    (rawFeature tok tokens lmask cid sid bodyIds).label_mask.length =
      tokens.length + 2 := by
  unfold rawFeature convert_tokens_to_ids
  simp [hb, hm]

theorem padFeature_asserts (msl n : Nat) (f : Feature)
    (h1 : f.input_ids.length = n) (h2 : f.input_mask.length = n)
    (h3 : f.segment_ids.length = n) (h4 : f.label_ids.length = n)
    (h5 : f.label_mask.length = n) (hle : n ≤ msl) :
    lengthAsserts msl (padFeature msl f) := by
  unfold lengthAsserts padFeature
  simp only [padTo_length, h1, h2, h3, h4, h5]
  omega

theorem assembleLabelIds_no_assertError (tag2id : List (String × Nat)) :
    ∀ (ts ls : List String),
      assembleLabelIds tag2id ts ls ≠ .error .assertError
  | [], _ => by simp [assembleLabelIds]
  | _ :: _, [] => by simp [assembleLabelIds]
  | t :: ts, l :: ls => by
    simp only [assembleLabelIds]
    split
    · simp
    · cases hrec : assembleLabelIds tag2id ts ls with
      | error e' =>
        simp only [Except.map]
        intro h
        cases h
        exact assembleLabelIds_no_assertError tag2id ts ls hrec
      | ok ids => simp [Except.map]

theorem buildFeature_fixed_ok (tag2id : List (String × Nat)) (tok : Tokenizer)
    (msl : Nat) (tokens labels : List String) (lmask : List Bool)
    (_hl : labels.length = tokens.length) (hm : lmask.length = tokens.length)
    (hb : tokens.length + 2 ≤ msl) :
    buildFeature tag2id tok msl true tokens labels lmask ≠
      .error .assertError ∧
    ∀ f, buildFeature tag2id tok msl true tokens labels lmask = .ok f →
      lengthAsserts msl f := by
  unfold buildFeature
  cases hcls : lookupTag tag2id "[CLS]" with
  | none => exact ⟨by simp, fun f h => by cases h⟩
  | some cid =>
    cases hasm : assembleLabelIds tag2id tokens labels with
    | error e =>
      refine ⟨?_, fun f h => by cases h⟩
      intro h
      cases h
      exact assembleLabelIds_no_assertError tag2id tokens labels hasm
    | ok bodyIds =>
      cases hsep : lookupTag tag2id "[SEP]" with
      | none => exact ⟨by simp, fun f h => by cases h⟩
      | some sid =>
        have hblen := assembleLabelIds_length tag2id tokens labels bodyIds hasm
        have hraw := rawFeature_lengths tok tokens lmask cid sid bodyIds hblen hm
        have hassert : lengthAsserts msl
            (padFeature msl (rawFeature tok tokens lmask cid sid bodyIds)) :=
          padFeature_asserts msl (tokens.length + 2) _
            hraw.2.1 hraw.2.2.1 hraw.2.2.2.1 hraw.2.2.2.2.1 hraw.2.2.2.2.2 hb
        simp only [if_pos rfl, if_pos hassert]
        exact ⟨by simp, fun f h => by cases h; exact hassert⟩

/-- C1 counterexample: `max_seq_length = 1` is a positive length, yet
already the empty example fails the post-padding asserts (the
marker-wrapped sequence has length 2 and is never shortened below 2),
so the conversion dies with an assertion error and no output arrays of
length 1 exist. -/
theorem fixed_length_counterexample :
    0 < 1 ∧
    convertExample reservedTag2id unitTok 1 true [] [] =
      .error .assertError := by
  exact ⟨Nat.zero_lt_one, rfl⟩

/-- C1 (amended: `max_seq_length ≥ 2`): in fixed-length mode every
successfully converted example has all five output arrays of length
exactly `max_seq_length`, and the post-padding length assertions can
never fire (the conversion never returns the assertion-failure error). -/
theorem fixed_length_invariant (tag2id : List (String × Nat))
    (tok : Tokenizer) (msl : Nat) (words tags : List String)
    (h2 : 2 ≤ msl) :
    convertExample tag2id tok msl true words tags ≠ .error .assertError ∧
    ∀ f, convertExample tag2id tok msl true words tags = .ok f →
      f.input_ids.length = msl ∧ f.input_mask.length = msl ∧
      f.segment_ids.length = msl ∧ f.label_ids.length = msl ∧
      f.label_mask.length = msl := by
  unfold convertExample
  cases halign : alignExample tok words tags with
  | none => exact ⟨by simp, fun f h => by cases h⟩
  | some r =>
    obtain ⟨tokens0, labels0, mask0⟩ := r
    have hlen := alignExample_lengths tok words tags _ halign
    simp only at hlen
    have htr := truncateExample_lengths true msl tokens0 labels0 mask0
      hlen.1.symm hlen.2.symm
    have hbound := truncateExample_token_bound msl tokens0 labels0 mask0 h2
    exact buildFeature_fixed_ok tag2id tok msl _ _ _ htr.1 htr.2 (by omega)

/-- C1 witness: a concrete conversion at `max_seq_length = 4`. -/
theorem fixed_length_invariant_witness :
    convertExample (set_tags ["O"]) unitTok 4 true ["hi"] ["O"] ≠
      .error .assertError ∧
    ∀ f, convertExample (set_tags ["O"]) unitTok 4 true ["hi"] ["O"] =
        .ok f →
      f.input_ids.length = 4 ∧ f.input_mask.length = 4 ∧
      f.segment_ids.length = 4 ∧ f.label_ids.length = 4 ∧
      f.label_mask.length = 4 :=
  fixed_length_invariant (set_tags ["O"]) unitTok 4 ["hi"] ["O"] (by decide)

theorem convertExample_ok_inv (tag2id : List (String × Nat))
    (tok : Tokenizer) (msl : Nat) (useMax : Bool)
    (words tags : List String) (f : Feature)
    (h : convertExample tag2id tok msl useMax words tags = .ok f) :
    ∃ tokens0 labels0 mask0 cid bodyIds sid,
      alignExample tok words tags = some (tokens0, labels0, mask0) ∧
      lookupTag tag2id "[CLS]" = some cid ∧
      assembleLabelIds tag2id
        (truncateExample useMax msl tokens0 labels0 mask0).1
        (truncateExample useMax msl tokens0 labels0 mask0).2.1 =
          .ok bodyIds ∧
      lookupTag tag2id "[SEP]" = some sid ∧
      ((useMax = true ∧
          f = padFeature msl (rawFeature tok
              (truncateExample useMax msl tokens0 labels0 mask0).1
              (truncateExample useMax msl tokens0 labels0 mask0).2.2
              cid sid bodyIds)) ∨
       (useMax = false ∧
          f = rawFeature tok
              (truncateExample useMax msl tokens0 labels0 mask0).1
              (truncateExample useMax msl tokens0 labels0 mask0).2.2
              cid sid bodyIds)) := by
  unfold convertExample at h
  cases halign : alignExample tok words tags with
  | none => rw [halign] at h; cases h
  | some r =>
    obtain ⟨tokens0, labels0, mask0⟩ := r
    rw [halign] at h
    simp only at h
    unfold buildFeature at h
    cases hcls : lookupTag tag2id "[CLS]" with
    | none => rw [hcls] at h; cases h
    | some cid =>
      rw [hcls] at h
      cases hasm : assembleLabelIds tag2id
          (truncateExample useMax msl tokens0 labels0 mask0).1
          (truncateExample useMax msl tokens0 labels0 mask0).2.1 with
      | error e => rw [hasm] at h; cases h
      | ok bodyIds =>
        rw [hasm] at h
        cases hsep : lookupTag tag2id "[SEP]" with
        | none => rw [hsep] at h; cases h
        | some sid =>
          rw [hsep] at h
          simp only at h
          refine ⟨tokens0, labels0, mask0, cid, bodyIds, sid,
            rfl, rfl, hasm, rfl, ?_⟩
          cases useMax with
          | false =>
            right
            refine ⟨rfl, ?_⟩
            simp only [Bool.false_eq_true, if_false] at h
            cases h
            rfl
          | true =>
            left
            refine ⟨rfl, ?_⟩
            simp only [eq_self_iff_true, if_true] at h
            split at h
            · cases h; rfl
            · cases h

theorem rawFeature_markers (tok : Tokenizer) (tokens : List String)
    (lmask : List Bool) (cid sid : Nat) (bodyIds : List Nat)
    (hb : bodyIds.length = tokens.length) (hm : lmask.length = tokens.length) :
    (rawFeature tok tokens lmask cid sid bodyIds).ntokens[0]? =
      some "[CLS]" ∧
    (rawFeature tok tokens lmask cid sid bodyIds).label_ids[0]? = some cid ∧
    (rawFeature tok tokens lmask cid sid bodyIds).label_mask[0]? =
      some false ∧
    (rawFeature tok tokens lmask cid sid bodyIds).ntokens[tokens.length + 1]? =
      some "[SEP]" ∧
    (rawFeature tok tokens lmask cid sid bodyIds).label_ids[tokens.length + 1]? =
      some sid ∧
    (rawFeature tok tokens lmask cid sid bodyIds).label_mask[tokens.length + 1]? =
      some false ∧
    (∀ s ∈ (rawFeature tok tokens lmask cid sid bodyIds).segment_ids,
       s = 0) := by
  unfold rawFeature
  simp only
  refine ⟨?_, ?_, ?_, ?_, ?_, ?_, ?_⟩
  · simp
  · simp
  · simp
  · simp [List.getElem?_concat_length]
  · rw [← hb]
    simp [List.getElem?_concat_length]
  · rw [← hm]
    simp [List.getElem?_concat_length]
  · intro s hs
    rcases List.mem_cons.mp hs with rfl | hs'
    · rfl
    rcases List.mem_append.mp hs' with hs'' | hs''
    · rcases List.mem_map.mp hs'' with ⟨a, _, heq⟩
      rw [← heq]
    · rw [List.mem_singleton.mp hs'']

/-- C4: for every example successfully converted under a `set_tags`
vocabulary, position 0 of the assembled token sequence is the
sequence-start marker `'[CLS]'` with validity `false` and label id 2
(the reserved start-tag id); the position immediately after the last
real token is the sequence-end marker `'[SEP]'` with validity `false`
and label id 3 (the reserved end-tag id); and every segment id of the
example is 0. -/
theorem marker_positions (tags : List String) (tok : Tokenizer)
    (msl : Nat) (useMax : Bool) (words tlist : List String) (f : Feature)
    (h : convertExample (set_tags tags) tok msl useMax words tlist = .ok f) :
    f.ntokens[0]? = some "[CLS]" ∧
    f.label_ids[0]? = some 2 ∧
    f.label_mask[0]? = some false ∧
    f.ntokens[f.ntokens.length - 1]? = some "[SEP]" ∧
    f.label_ids[f.ntokens.length - 1]? = some 3 ∧
    f.label_mask[f.ntokens.length - 1]? = some false ∧
    (∀ s ∈ f.segment_ids, s = 0) := by
  obtain ⟨tokens0, labels0, mask0, cid, bodyIds, sid, halign, hcls, hasm,
    hsep, hcase⟩ := convertExample_ok_inv _ tok msl useMax words tlist f h
  have hcid : cid = 2 := by
    have := lookupTag_foldl_of_some tags reservedTag2id "[CLS]" 2 (by decide)
    rw [set_tags] at hcls
    rw [this] at hcls
    exact (Option.some_inj.mp hcls).symm
  have hsid : sid = 3 := by
    have := lookupTag_foldl_of_some tags reservedTag2id "[SEP]" 3 (by decide)
    rw [set_tags] at hsep
    rw [this] at hsep
    exact (Option.some_inj.mp hsep).symm
  subst hcid hsid
  have hal := alignExample_lengths tok words tlist _ halign
  simp only at hal
  have htr := truncateExample_lengths useMax msl tokens0 labels0 mask0
    hal.1.symm hal.2.symm
  set t := (truncateExample useMax msl tokens0 labels0 mask0).1 with ht
  set lm := (truncateExample useMax msl tokens0 labels0 mask0).2.2 with hlm
  have hblen : bodyIds.length = t.length :=
    assembleLabelIds_length _ _ _ _ hasm
  have hmlen : lm.length = t.length := htr.2
  have hraw := rawFeature_markers tok t lm 2 3 bodyIds hblen hmlen
  have hrawlen := rawFeature_lengths tok t lm 2 3 bodyIds hblen hmlen
  have hn : (rawFeature tok t lm 2 3 bodyIds).ntokens.length - 1 =
      t.length + 1 := by rw [hrawlen.1]; omega
  rcases hcase with ⟨_, hf⟩ | ⟨_, hf⟩
  · -- fixed-length mode: the five arrays are padded, `ntokens` is not
    have e0 : f.ntokens = (rawFeature tok t lm 2 3 bodyIds).ntokens := by
      rw [hf]; rfl
    have e3 : f.segment_ids =
        padTo msl 0 (rawFeature tok t lm 2 3 bodyIds).segment_ids := by
      rw [hf]; rfl
    have e4 : f.label_ids =
        padTo msl 0 (rawFeature tok t lm 2 3 bodyIds).label_ids := by
      rw [hf]; rfl
    have e5 : f.label_mask =
        padTo msl false (rawFeature tok t lm 2 3 bodyIds).label_mask := by
      rw [hf]; rfl
    refine ⟨?_, ?_, ?_, ?_, ?_, ?_, ?_⟩
    · rw [e0]; exact hraw.1
    · rw [e4, padTo, List.getElem?_append_left (by rw [hrawlen.2.2.2.2.1]; omega)]
      exact hraw.2.1
    · rw [e5, padTo, List.getElem?_append_left (by rw [hrawlen.2.2.2.2.2]; omega)]
      exact hraw.2.2.1
    · rw [e0, hn]
      exact hraw.2.2.2.1
    · rw [e4, e0, hn, padTo,
        List.getElem?_append_left (by rw [hrawlen.2.2.2.2.1]; omega)]
      exact hraw.2.2.2.2.1
    · rw [e5, e0, hn, padTo,
        List.getElem?_append_left (by rw [hrawlen.2.2.2.2.2]; omega)]
      exact hraw.2.2.2.2.2.1
    · intro s hs
      rw [e3, padTo] at hs
      rcases List.mem_append.mp hs with hs | hs
      · exact hraw.2.2.2.2.2.2 s hs
      · exact List.eq_of_mem_replicate hs
  · -- variable-length mode: the raw record is returned as-is
    subst hf
    refine ⟨hraw.1, hraw.2.1, hraw.2.2.1, ?_, ?_, ?_, hraw.2.2.2.2.2.2⟩
    · rw [hn]
      exact hraw.2.2.2.1
    · rw [hn]
      exact hraw.2.2.2.2.1
    · rw [hn]
      exact hraw.2.2.2.2.2.1

/-- C4 witness: a concrete conversion. -/
theorem marker_positions_witness :
    ∃ f : Feature,
      convertExample (set_tags ["O"]) unitTok 4 true ["hi"] ["O"] = .ok f ∧
      f.ntokens[0]? = some "[CLS]" ∧
      f.label_ids[0]? = some 2 ∧
      f.label_mask[0]? = some false ∧
      f.ntokens[f.ntokens.length - 1]? = some "[SEP]" ∧
      f.label_ids[f.ntokens.length - 1]? = some 3 ∧
      f.label_mask[f.ntokens.length - 1]? = some false ∧
      (∀ s ∈ f.segment_ids, s = 0) :=
  ⟨⟨["[CLS]", "hi", "[SEP]"], [0, 0, 0, 0], [1, 1, 1, 0], [0, 0, 0, 0],
     [2, 4, 3, 0], [false, true, false, false]⟩, rfl,
   marker_positions ["O"] unitTok 4 true ["hi"] ["O"] _ rfl⟩

theorem truncateExample_false (msl : Nat) (tokens labels : List String)
    (mask : List Bool) :
    truncateExample false msl tokens labels mask = (tokens, labels, mask) := by
  unfold truncateExample
  rw [if_neg]
  rintro ⟨hfalse, -⟩
  simp at hfalse

/-- C10: in variable-length mode (`use_max_seq` false) every
successfully converted example has its five output sequences of one
identical length, namely the aligned real-token count plus 2 for the
start/end markers; no truncation and no padding happens (`ntokens` is
exactly the aligned token list wrapped in the two markers). -/
theorem variable_length_mode (tag2id : List (String × Nat))
    (tok : Tokenizer) (msl : Nat) (words tlist : List String) (f : Feature)
    (h : convertExample tag2id tok msl false words tlist = .ok f) :
    ∃ tokens0 labels0 mask0,
      alignExample tok words tlist = some (tokens0, labels0, mask0) ∧
      f.ntokens = "[CLS]" :: tokens0 ++ ["[SEP]"] ∧
      f.input_ids.length = tokens0.length + 2 ∧
      f.input_mask.length = tokens0.length + 2 ∧
      f.segment_ids.length = tokens0.length + 2 ∧
      f.label_ids.length = tokens0.length + 2 ∧
      f.label_mask.length = tokens0.length + 2 := by
  obtain ⟨tokens0, labels0, mask0, cid, bodyIds, sid, halign, hcls, hasm,
    hsep, hcase⟩ := convertExample_ok_inv tag2id tok msl false words tlist f h
  rcases hcase with ⟨htrue, -⟩ | ⟨-, hf⟩
  · simp at htrue
  refine ⟨tokens0, labels0, mask0, halign, ?_⟩
  rw [truncateExample_false] at hasm hf
  simp only at hasm hf
  have hal := alignExample_lengths tok words tlist _ halign
  simp only at hal
  have hblen : bodyIds.length = tokens0.length :=
    assembleLabelIds_length _ _ _ _ hasm
  have hr := rawFeature_lengths tok tokens0 mask0 cid sid bodyIds hblen
    hal.2.symm
  subst hf
  exact ⟨rfl, hr.2.1, hr.2.2.1, hr.2.2.2.1, hr.2.2.2.2.1, hr.2.2.2.2.2⟩

/-- C10 witness: a concrete variable-length conversion. -/
theorem variable_length_mode_witness :
    ∃ tokens0 labels0 mask0,
      alignExample unitTok ["hi"] ["O"] = some (tokens0, labels0, mask0) ∧
      (⟨["[CLS]", "hi", "[SEP]"], [0, 0, 0], [1, 1, 1], [0, 0, 0],
          [2, 4, 3], [false, true, false]⟩ : Feature).ntokens =
        "[CLS]" :: tokens0 ++ ["[SEP]"] ∧
      ([0, 0, 0] : List Nat).length = tokens0.length + 2 ∧
      ([1, 1, 1] : List Nat).length = tokens0.length + 2 ∧
      ([0, 0, 0] : List Nat).length = tokens0.length + 2 ∧
      ([2, 4, 3] : List Nat).length = tokens0.length + 2 ∧
      ([false, true, false] : List Bool).length = tokens0.length + 2 :=
  variable_length_mode (set_tags ["O"]) unitTok 4 ["hi"] ["O"] _ rfl

/-- The label strings actually fed to the label-id assignment loop of an
example: the aligned labels after truncation. -/
def processedLabels (tok : Tokenizer) (msl : Nat) (useMax : Bool)
    (words tlist : List String) : Option (List String) :=
  (alignExample tok words tlist).map
    (fun r => (truncateExample useMax msl r.1 r.2.1 r.2.2).2.1)

/-- C7: under a `set_tags` vocabulary (so the reserved marker lookups
cannot fail) and matching word/tag lengths, the conversion of an example
fails with a lookup error exactly when some processed label string is
absent from the tag-to-id vocabulary; and any per-example error
propagates uncaught out of `convert_examples_to_features`. -/
theorem lookup_error_characterisation (tags : List String)
    (tok : Tokenizer) (msl : Nat) (useMax : Bool)
    (words tlist : List String) (hlen : tlist.length = words.length) :
    (∃ ls, processedLabels tok msl useMax words tlist = some ls ∧
      ((∃ t, convertExample (set_tags tags) tok msl useMax words tlist =
          .error (.keyError t)) ↔
        ∃ l ∈ ls, lookupTag (set_tags tags) l = none)) ∧
    (∀ e, convertExample (set_tags tags) tok msl useMax words tlist =
        .error e →
      convert_examples_to_features (set_tags tags) tok msl useMax
        [words] (some [tlist]) = .error e) := by
  have hcls : lookupTag (set_tags tags) "[CLS]" = some 2 := by
    rw [set_tags]
    exact lookupTag_foldl_of_some tags reservedTag2id "[CLS]" 2 (by decide)
  have hsep : lookupTag (set_tags tags) "[SEP]" = some 3 := by
    rw [set_tags]
    exact lookupTag_foldl_of_some tags reservedTag2id "[SEP]" 3 (by decide)
  have hsome := alignExample_isSome tok words tlist (le_of_eq hlen.symm)
  rcases Option.isSome_iff_exists.mp hsome with ⟨r, halign⟩
  obtain ⟨tokens0, labels0, mask0⟩ := r
  have hal := alignExample_lengths tok words tlist _ halign
  simp only at hal
  have htr := truncateExample_lengths useMax msl tokens0 labels0 mask0
    hal.1.symm hal.2.symm
  have hconv : convertExample (set_tags tags) tok msl useMax words tlist =
      buildFeature (set_tags tags) tok msl useMax
        (truncateExample useMax msl tokens0 labels0 mask0).1
        (truncateExample useMax msl tokens0 labels0 mask0).2.1
        (truncateExample useMax msl tokens0 labels0 mask0).2.2 := by
    unfold convertExample
    rw [halign]
  constructor
  · refine ⟨(truncateExample useMax msl tokens0 labels0 mask0).2.1, ?_, ?_⟩
    · unfold processedLabels
      rw [halign, Option.map_some']
    · rw [hconv]
      cases hasmb : assembleLabelIds (set_tags tags)
          (truncateExample useMax msl tokens0 labels0 mask0).1
          (truncateExample useMax msl tokens0 labels0 mask0).2.1 with
      | error e =>
        have hkey : ∃ t, e = .keyError t := by
          cases e with
          | indexError =>
            exact absurd hasmb (assembleLabelIds_not_indexError _ _ _
              (le_of_eq htr.1.symm))
          | keyError t => exact ⟨t, rfl⟩
          | assertError =>
            exact absurd hasmb (assembleLabelIds_no_assertError _ _ _)
        obtain ⟨t, rfl⟩ := hkey
        have hbuild : buildFeature (set_tags tags) tok msl useMax
            (truncateExample useMax msl tokens0 labels0 mask0).1
            (truncateExample useMax msl tokens0 labels0 mask0).2.1
            (truncateExample useMax msl tokens0 labels0 mask0).2.2 =
            .error (.keyError t) := by
          unfold buildFeature
          rw [hcls, hasmb]
        rw [hbuild]
        constructor
        · intro _
          exact (assembleLabelIds_keyError_iff _ _ _ htr.1.symm).mp
            ⟨t, hasmb⟩
        · intro _
          exact ⟨t, rfl⟩
      | ok bodyIds =>
        have hnokey : ∀ t', buildFeature (set_tags tags) tok msl useMax
            (truncateExample useMax msl tokens0 labels0 mask0).1
            (truncateExample useMax msl tokens0 labels0 mask0).2.1
            (truncateExample useMax msl tokens0 labels0 mask0).2.2 ≠
            .error (.keyError t') := by
          intro t'
          unfold buildFeature
          rw [hcls, hasmb, hsep]
          simp only
          cases useMax with
          | false => simp
          | true =>
            simp only [eq_self_iff_true, if_true]
            split <;> simp
        constructor
        · rintro ⟨t', ht'⟩
          exact absurd ht' (hnokey t')
        · rintro ⟨l, hl, hnone⟩
          exfalso
          rcases (assembleLabelIds_keyError_iff _ _ _ htr.1.symm).mpr
            ⟨l, hl, hnone⟩ with ⟨t', ht'⟩
          rw [ht'] at hasmb
          cases hasmb
  · intro e he
    unfold convert_examples_to_features
    simp only
    unfold convertAll
    rw [he]

/-- C7 witness: an out-of-vocabulary tag makes the conversion of the
example fail, and the failure propagates out of the batch call. -/
theorem lookup_error_characterisation_witness :
    (∃ ls, processedLabels unitTok 4 true ["x"] ["B"] = some ls ∧
      ((∃ t, convertExample (set_tags []) unitTok 4 true ["x"] ["B"] =
          .error (.keyError t)) ↔
        ∃ l ∈ ls, lookupTag (set_tags []) l = none)) ∧
    (∀ e, convertExample (set_tags []) unitTok 4 true ["x"] ["B"] =
        .error e →
      convert_examples_to_features (set_tags []) unitTok 4 true
        [["x"]] (some [["B"]]) = .error e) :=
  lookup_error_characterisation [] unitTok 4 true ["x"] ["B"] (by decide)

/-- The label/validity shapes reachable when every input tag is the pad
tag: valid positions carry the pad tag, invalid continuation positions
carry `'[INV]'`. -/
def padLab (l : String) (m : Bool) : Prop :=
  (l = "_t_pad_" ∧ m = true) ∨ (l = "[INV]" ∧ m = false)

theorem forall₂_padLab_replicate (n : Nat) :
    List.Forall₂ padLab (List.replicate n "[INV]") (List.replicate n false) := by
  induction n with
  | zero => exact List.Forall₂.nil
  | succ n ih => exact List.Forall₂.cons (Or.inr ⟨rfl, rfl⟩) ih

theorem forall₂_padLab_word (k : Nat) :
    List.Forall₂ padLab (wordLabels "_t_pad_" k) (wordMask k) := by
  cases k with
  | zero => exact List.Forall₂.nil
  | succ k =>
    rw [wordLabels_succ, wordMask_succ]
    exact List.Forall₂.cons (Or.inl ⟨rfl, rfl⟩) (forall₂_padLab_replicate k)

theorem align_all_pad (tok : Tokenizer) :
    ∀ (ws ls : List String) (r : List String × List String × List Bool),
      (∀ l ∈ ls, l = "_t_pad_") → alignExample tok ws ls = some r →
      List.Forall₂ padLab r.2.1 r.2.2
  | [], _, r, _, h => by
    simp only [alignExample, Option.some_inj] at h
    subst h
    exact List.Forall₂.nil
  | _ :: _, [], r, _, h => by simp [alignExample] at h
  | word :: ws, l :: ls, r, hpad, h => by
    have hl : l = "_t_pad_" := hpad l (List.mem_cons_self _ _)
    have hrest : ∀ l' ∈ ls, l' = "_t_pad_" := fun l' hl' =>
      hpad l' (List.mem_cons_of_mem _ hl')
    simp only [alignExample] at h
    split at h
    · rcases Option.map_eq_some'.mp h with ⟨r', hr', rfl⟩
      have ih := align_all_pad tok ws ls r' hrest hr'
      exact List.Forall₂.cons (Or.inl ⟨hl, rfl⟩) ih
    · split at h
      · exact align_all_pad tok ws ls r hrest h
      · rcases Option.map_eq_some'.mp h with ⟨r', hr', rfl⟩
        have ih := align_all_pad tok ws ls r' hrest hr'
        subst hl
        exact List.rel_append (forall₂_padLab_word _) ih

theorem truncate_forall₂ (useMax : Bool) (msl : Nat)
    (tokens labels : List String) (mask : List Bool)
    (h : List.Forall₂ padLab labels mask) :
    List.Forall₂ padLab (truncateExample useMax msl tokens labels mask).2.1
      (truncateExample useMax msl tokens labels mask).2.2 := by
  unfold truncateExample
  split
  · unfold pySliceTo
    split
    · exact List.forall₂_take _ h
    · rw [h.length_eq]
      exact List.forall₂_take _ h
  · exact h

theorem assemble_all_pad (m : List (String × Nat))
    (hpadid : lookupTag m "_t_pad_" = some 0)
    (hinvid : lookupTag m "[INV]" = some 1) :
    ∀ (ts labels : List String) (mask : List Bool) (bodyIds : List Nat),
      ts.length = labels.length →
      List.Forall₂ padLab labels mask →
      assembleLabelIds m ts labels = .ok bodyIds →
      List.Forall₂ (fun x mk => (x = 0 ∧ mk = true) ∨ (x = 1 ∧ mk = false))
        bodyIds mask
  | [], [], mask, bodyIds, _, hf, h => by
    cases hf
    simp only [assembleLabelIds] at h
    cases h
    exact List.Forall₂.nil
  | [], _ :: _, _, _, hlen, _, _ => by simp at hlen
  | _ :: _, [], _, _, hlen, _, _ => by simp at hlen
  | t :: ts, l :: ls, mask, bodyIds, hlen, hf, h => by
    have hlen' : ts.length = ls.length := by simpa using hlen
    cases hf with
    | cons hlm hrest =>
      rename_i mh mt
      simp only [assembleLabelIds] at h
      rcases hlm with ⟨rfl, rfl⟩ | ⟨rfl, rfl⟩
      · rw [hpadid] at h
        cases hrec : assembleLabelIds m ts ls with
        | error e => rw [hrec] at h; simp [Except.map] at h
        | ok ids =>
          rw [hrec] at h
          simp only [Except.map, Except.ok.injEq] at h
          subst h
          exact List.Forall₂.cons (Or.inl ⟨rfl, rfl⟩)
            (assemble_all_pad m hpadid hinvid ts ls mt ids hlen' hrest hrec)
      · rw [hinvid] at h
        cases hrec : assembleLabelIds m ts ls with
        | error e => rw [hrec] at h; simp [Except.map] at h
        | ok ids =>
          rw [hrec] at h
          simp only [Except.map, Except.ok.injEq] at h
          subst h
          exact List.Forall₂.cons (Or.inr ⟨rfl, rfl⟩)
            (assemble_all_pad m hpadid hinvid ts ls mt ids hlen' hrest hrec)

theorem convertAll_ok_mem (tag2id : List (String × Nat)) (tok : Tokenizer)
    (msl : Nat) (useMax : Bool) :
    ∀ (wss tss : List (List String)) (fs : List Feature),
      convertAll tag2id tok msl useMax wss tss = .ok fs →
      ∀ f ∈ fs, ∃ ws ts, ts ∈ tss ∧
        convertExample tag2id tok msl useMax ws ts = .ok f
  | [], _, fs, h, f, hf => by
    simp only [convertAll] at h
    cases h
    cases hf
  | _ :: _, [], fs, h, f, hf => by simp [convertAll] at h
  | ws :: wss, ts :: tss, fs, h, f, hf => by
    simp only [convertAll] at h
    cases hex : convertExample tag2id tok msl useMax ws ts with
    | error e => rw [hex] at h; cases h
    | ok f0 =>
      rw [hex] at h
      cases hrec : convertAll tag2id tok msl useMax wss tss with
      | error e => rw [hrec] at h; simp [Except.map] at h
      | ok fs0 =>
        rw [hrec] at h
        simp only [Except.map, Except.ok.injEq] at h
        subst h
        rcases List.mem_cons.mp hf with rfl | hf'
        · exact ⟨ws, ts, List.mem_cons_self _ _, hex⟩
        · rcases convertAll_ok_mem tag2id tok msl useMax wss tss fs0 hrec
            f hf' with ⟨ws', ts', hts', hex'⟩
          exact ⟨ws', ts', List.mem_cons_of_mem _ hts', hex'⟩

theorem set_tags_pad_id (tags : List String) :
    lookupTag (set_tags tags) "_t_pad_" = some 0 := by
  rw [set_tags]
  exact lookupTag_foldl_of_some tags reservedTag2id _ _ (by decide)

theorem set_tags_inv_id (tags : List String) :
    lookupTag (set_tags tags) "[INV]" = some 1 := by
  rw [set_tags]
  exact lookupTag_foldl_of_some tags reservedTag2id _ _ (by decide)

theorem convertExample_all_pad (tags : List String) (tok : Tokenizer)
    (msl : Nat) (useMax : Bool) (words tlist : List String) (f : Feature)
    (hpad : ∀ l ∈ tlist, l = "_t_pad_")
    (h : convertExample (set_tags tags) tok msl useMax words tlist = .ok f) :
    ∃ body bmask pads,
      f.label_ids = 2 :: (body ++ 3 :: List.replicate pads 0) ∧
      f.label_mask = false :: (bmask ++ false :: List.replicate pads false) ∧
      f.ntokens.length = body.length + 2 ∧
      List.Forall₂ (fun x mk => (x = 0 ∧ mk = true) ∨ (x = 1 ∧ mk = false))
        body bmask := by
  obtain ⟨tokens0, labels0, mask0, cid, bodyIds, sid, halign, hcls, hasm,
    hsep, hcase⟩ := convertExample_ok_inv _ tok msl useMax words tlist f h
  have hcid : cid = 2 := by
    have h2 : lookupTag (set_tags tags) "[CLS]" = some 2 := by
      rw [set_tags]
      exact lookupTag_foldl_of_some tags reservedTag2id _ _ (by decide)
    rw [h2] at hcls
    exact (Option.some_inj.mp hcls).symm
  have hsid : sid = 3 := by
    have h3 : lookupTag (set_tags tags) "[SEP]" = some 3 := by
      rw [set_tags]
      exact lookupTag_foldl_of_some tags reservedTag2id _ _ (by decide)
    rw [h3] at hsep
    exact (Option.some_inj.mp hsep).symm
  subst hcid hsid
  set t := (truncateExample useMax msl tokens0 labels0 mask0).1 with hts
  set pls := (truncateExample useMax msl tokens0 labels0 mask0).2.1 with hpls
  set pms := (truncateExample useMax msl tokens0 labels0 mask0).2.2 with hpms
  have hf2 : List.Forall₂ padLab labels0 mask0 :=
    align_all_pad tok words tlist _ hpad halign
  have hf2t : List.Forall₂ padLab pls pms :=
    truncate_forall₂ useMax msl tokens0 labels0 mask0 hf2
  have hal := alignExample_lengths tok words tlist _ halign
  simp only at hal
  have htr := truncateExample_lengths useMax msl tokens0 labels0 mask0
    hal.1.symm hal.2.symm
  have hbody : List.Forall₂
      (fun x mk => (x = 0 ∧ mk = true) ∨ (x = 1 ∧ mk = false))
      bodyIds pms :=
    assemble_all_pad _ (set_tags_pad_id tags) (set_tags_inv_id tags)
      t pls pms bodyIds htr.1.symm hf2t hasm
  have hblen : bodyIds.length = t.length :=
    assembleLabelIds_length _ _ _ _ hasm
  have hmask_len : pms.length = bodyIds.length := hbody.length_eq.symm
  rcases hcase with ⟨-, hf⟩ | ⟨-, hf⟩
  · refine ⟨bodyIds, pms, msl - (bodyIds.length + 2), ?_, ?_, ?_, hbody⟩
    · rw [hf]
      show padTo msl 0 (2 :: bodyIds ++ [3]) =
        2 :: (bodyIds ++ 3 :: List.replicate (msl - (bodyIds.length + 2)) 0)
      have hcount : (2 :: bodyIds ++ [3]).length = bodyIds.length + 2 := by
        simp
      rw [padTo, hcount]
      simp [List.append_assoc]
    · rw [hf]
      show padTo msl false (false :: pms ++ [false]) =
        false :: (pms ++ false ::
          List.replicate (msl - (bodyIds.length + 2)) false)
      have hcount : (false :: pms ++ [false]).length = bodyIds.length + 2 := by
        simp [hmask_len]
      rw [padTo, hcount]
      simp [List.append_assoc]
    · rw [hf]
      show ("[CLS]" :: t ++ ["[SEP]"]).length = bodyIds.length + 2
      simp [hblen]
  · refine ⟨bodyIds, pms, 0, ?_, ?_, ?_, hbody⟩
    · rw [hf]
      show (2 :: bodyIds ++ [3] : List Nat) =
        2 :: (bodyIds ++ 3 :: List.replicate 0 0)
      simp
    · rw [hf]
      show (false :: pms ++ [false] : List Bool) =
        false :: (pms ++ false :: List.replicate 0 false)
      simp
    · rw [hf]
      show ("[CLS]" :: t ++ ["[SEP]"]).length = bodyIds.length + 2
      simp [hblen]

/-- C8 counterexample: at test time (`tag_seq = None`) with a tokenizer
splitting the single word into two subwords, the continuation position
carries label id 1 (the reserved invalid-continuation id), which is
nonzero and sits at neither marker position — so not every non-marker
label id is 0. -/
theorem test_time_label_ids_counterexample :
    ∃ feats, convert_examples_to_features (set_tags []) pairTok 5 true
        [["w"]] none = .ok feats ∧
      ∃ f ∈ feats, ∃ i x, f.label_ids[i]? = some x ∧ x ≠ 0 ∧ i ≠ 0 ∧
        i ≠ f.ntokens.length - 1 := by
  refine ⟨[⟨["[CLS]", "a", "b", "[SEP]"], [0, 0, 0, 0, 0], [1, 1, 1, 1, 0],
    [0, 0, 0, 0, 0], [2, 0, 1, 3, 0],
    [false, true, false, false, false]⟩], rfl, ?_⟩
  refine ⟨_, List.mem_singleton.mpr rfl, 2, 1, ?_, by decide, by decide,
    by decide⟩
  rfl

/-- C8 (amended): a test-time call (`tag_seq` absent) synthesizes an
all-pad tag sequence matching each word sequence, and in every resulting
example the label ids are 0 everywhere except: the reserved start id 2
at position 0, the reserved end id 3 immediately after the last real
token, and the reserved invalid-continuation id 1 exactly at non-first
subword positions (whose validity mask is false). -/
theorem test_time_label_ids (tags : List String) (tok : Tokenizer)
    (msl : Nat) (useMax : Bool) (wseq : List (List String))
    (feats : List Feature)
    (h : convert_examples_to_features (set_tags tags) tok msl useMax
        wseq none = .ok feats) :
    (convert_examples_to_features (set_tags tags) tok msl useMax wseq none =
      convert_examples_to_features (set_tags tags) tok msl useMax wseq
        (some (wseq.map (fun ex => ex.map (fun _ => "_t_pad_"))))) ∧
    ∀ f ∈ feats, ∃ body bmask pads,
      f.label_ids = 2 :: (body ++ 3 :: List.replicate pads 0) ∧
      f.label_mask = false :: (bmask ++ false :: List.replicate pads false) ∧
      f.ntokens.length = body.length + 2 ∧
      List.Forall₂ (fun x mk => (x = 0 ∧ mk = true) ∨ (x = 1 ∧ mk = false))
        body bmask := by
  refine ⟨rfl, ?_⟩
  intro f hf
  have h' : convertAll (set_tags tags) tok msl useMax wseq
      (wseq.map (fun ex => ex.map (fun _ => "_t_pad_"))) = .ok feats := h
  have hmem := convertAll_ok_mem (set_tags tags) tok msl useMax wseq
    (wseq.map (fun ex => ex.map (fun _ => "_t_pad_"))) feats h' f hf
  rcases hmem with ⟨ws, ts, hts, hex⟩
  rcases List.mem_map.mp hts with ⟨ex, -, hts_eq⟩
  have hpad : ∀ l ∈ ts, l = "_t_pad_" := by
    intro l hl
    rw [← hts_eq] at hl
    rcases List.mem_map.mp hl with ⟨-, -, hval⟩
    exact hval.symm
  exact convertExample_all_pad tags tok msl useMax ws ts f hpad hex

/-- C8 witness: the concrete two-subword test-time conversion. -/
theorem test_time_label_ids_witness :
    (convert_examples_to_features (set_tags []) pairTok 5 true
        [["w"]] none =
      convert_examples_to_features (set_tags []) pairTok 5 true [["w"]]
        (some ([["w"]].map (fun ex => ex.map (fun _ => "_t_pad_"))))) ∧
    ∀ f ∈ [(⟨["[CLS]", "a", "b", "[SEP]"], [0, 0, 0, 0, 0], [1, 1, 1, 1, 0],
        [0, 0, 0, 0, 0], [2, 0, 1, 3, 0],
        [false, true, false, false, false]⟩ : Feature)],
      ∃ body bmask pads,
      f.label_ids = 2 :: (body ++ 3 :: List.replicate pads 0) ∧
      f.label_mask = false :: (bmask ++ false :: List.replicate pads false) ∧
      f.ntokens.length = body.length + 2 ∧
      List.Forall₂ (fun x mk => (x = 0 ∧ mk = true) ∨ (x = 1 ∧ mk = false))
        body bmask :=
  test_time_label_ids [] pairTok 5 true [["w"]] _ rfl

/-- C9: `convert_examples_to_features` has no side effects beyond the
optional diagnostic printing: run as a method on the instance state
(vocabularies plus the three loaded dataset splits), it returns that
state unchanged — the source assigns no `self.*` field and only appends
to lists freshly allocated inside the loop — and its result depends on
the instance state only through the tag-to-id vocabulary, with the
caller-supplied word and tag sequences read but never rebuilt. -/
theorem convert_no_side_effects (st : DataLoaderState) (tok : Tokenizer)
    (msl : Nat) (useMax : Bool) (word_seq : List (List String))
    (tag_seq : Option (List (List String))) :
    (convertMethod st tok msl useMax word_seq tag_seq).2 = st ∧
    (convertMethod st tok msl useMax word_seq tag_seq).1 =
      convert_examples_to_features st.tag2id tok msl useMax
        word_seq tag_seq :=
  ⟨rfl, rfl⟩

end Preprocessing
